import Mathlib

/-!
# Verification of the availability filtering / sorting / calendar-projection core

Shallow embedding of the core logic of the `secure-availability` dashboard:

* the predicate filter and multi-key sorter of `AdminDashboard.tsx`
  (the `filteredEntries` memo, lines 184-280), and
* the calendar activity projector `getEntriesForDate` of the
  `AvailabilityCalendar` component.

Modelling conventions:

* JS strings are modelled as `List Char` (`Str`).  All string operations
  (`split(',')`, `trim()`, `toLowerCase()`, `includes`, relational `<=`) are
  defined structurally below, mirroring the JS semantics on the relevant
  inputs; `localeCompare` is modelled as code-unit comparison (locale
  collation abstracted to a total order).
* Calendar dates (`date`, `end_date`, the filter's `searchDate` and the
  projector's target day) are modelled as integer day numbers: the sources
  only ever compare dates (`new Date(s) >= new Date(t)`, `isWithinInterval`,
  `isSameDay`), and for the date-only ISO strings involved those comparisons
  are exactly the day-number comparisons.  `civilDays`/`epochDay` provide the
  translation from concrete calendar dates.
* A field that may be `null`/absent at runtime is an `Option`; `none` models
  both `null` and a missing (`undefined`) field, which the JS sources treat
  identically (`!x`, `x || y`, `x ? a : b`).
* Fallible code is embedded in `Except String`: a JS exception (e.g.
  `undefined.split`) is `.error`.
* The external `date-fns` library is modelled from its documented v3
  semantics: `parseISO` of a missing value raises (`TypeError`), and
  `isWithinInterval` normalizes a reversed interval (sorts its two bounds).
* `Array.prototype.sort` is stable (ES2019); it is embedded as a stable
  (insertion) sort driven by the source's comparator, with comparator
  exceptions propagated; a comparator returning `NaN` is treated as `+0`
  (ES `SortCompare`).
-/

instance {ε α : Type} [DecidableEq ε] [DecidableEq α] : DecidableEq (Except ε α) := fun x y =>
  match x, y with
  | .ok a, .ok b =>
    if h : a = b then isTrue (by rw [h]) else isFalse (fun hh => by cases hh; exact h rfl)
  | .error a, .error b =>
    if h : a = b then isTrue (by rw [h]) else isFalse (fun hh => by cases hh; exact h rfl)
  | .ok _, .error _ => isFalse (fun hh => by cases hh)
  | .error _, .ok _ => isFalse (fun hh => by cases hh)

/-- JS strings, modelled as lists of characters. -/
abbrev Str := List Char

/-- Character data of a Lean string literal, used to write `Str` constants. -/
def str (s : String) : Str := s.data

/-- The characters removed by `String.prototype.trim` that can occur here. -/
def isSpaceChar (c : Char) : Bool := c = ' ' || c = '\t' || c = '\n' || c = '\r'

/-- `s.trim()`: strip whitespace from both ends. -/
def trimStr (s : Str) : Str :=
  ((s.dropWhile isSpaceChar).reverse.dropWhile isSpaceChar).reverse

/-- ASCII lower-casing of one character (`String.prototype.toLowerCase`,
restricted to the ASCII range actually exercised here). -/
def lowerChar (c : Char) : Char :=
  if 'A' ≤ c ∧ c ≤ 'Z' then Char.ofNat (c.toNat + 32) else c

/-- `s.toLowerCase()`. -/
def toLowerStr (s : Str) : Str := s.map lowerChar

/-- `s.split(',')`.  Note `"".split(',')` is `[""]`. -/
def splitComma : Str → List Str
  | [] => [[]]
  | c :: cs =>
    match splitComma cs with
    | [] => [[c]]
    | s :: ss => if c = ',' then [] :: s :: ss else (c :: s) :: ss

/-- `hay.includes(needle)`: substring containment. -/
def inclStr (needle : Str) : Str → Bool
  | [] => needle.isEmpty
  | c :: cs => needle.isPrefixOf (c :: cs) || inclStr needle cs

/-- JS `a < b` on strings: lexicographic code-unit comparison. -/
def strLt : Str → Str → Bool
  | [], [] => false
  | [], _ :: _ => true
  | _ :: _, [] => false
  | a :: as, b :: bs => if a < b then true else if b < a then false else strLt as bs

/-- JS `a <= b` on strings. -/
def strLe (a b : Str) : Bool := !(strLt b a)

/-- `a.localeCompare(b)`, modelled as code-unit comparison: negative when
`a` sorts first, positive when `b` sorts first, zero on equality. -/
def strCmp (a b : Str) : Int :=
  if strLt a b then -1 else if strLt b a then 1 else 0

/-- Day count of a civil date (proleptic Gregorian), counted from 0000-03-01;
valid for the dates appearing here.  Howard Hinnant's `days_from_civil`. -/
def civilDays (y m d : Nat) : Nat :=
  let y' := if m ≤ 2 then y - 1 else y
  let era := y' / 400
  let yoe := y' % 400
  let mp := (m + 9) % 12
  let doy := (153 * mp + 2) / 5 + d - 1
  let doe := yoe * 365 + yoe / 4 - yoe / 100 + doy
  era * 146097 + doe

/-- Day number of a civil date relative to the Unix epoch (1970-01-01 = 0). -/
def epochDay (y m d : Nat) : Int := (civilDays y m d : Int) - 719468

/-- `Date.prototype.getDay()` for a day number: 0 = Sunday … 6 = Saturday
(1970-01-01 was a Thursday). -/
def getDay (day : Int) : Int := (day + 4) % 7

/-- One availability record as it reaches the dashboard: the raw row joined
with its owner profile (`fetchEntries` merges the profile with `|| ''`
defaults, so the owner fields are always present strings).  `date` and
`location` are `Option` so that a malformed record missing one of these
required fields can be expressed (`none` = missing/`null`). -/
structure Entry where
  id : Str
  user_id : Option Str
  date : Option Int
  end_date : Option Int
  start_time : Option Str
  end_time : Option Str
  shift_type : Option Str
  location : Option Str
  mobile_deployable : Option Str
  notes : Option Str
  is_recurring : Option Bool
  weekdays : Option Str
  created_at : Option Int
  first_name : Str
  last_name : Str
  phone_number : Str
  guard_id_number : Str
  e_pin_number : Str
deriving DecidableEq

/-- The dashboard's filter state.  `searchTerm`/`searchTime` empty and the
`filter*` fields equal to `"all"` mean "unset"; `searchDate` is `none` when
the date input is empty, otherwise the day number of the chosen date. -/
structure Criteria where
  searchTerm : Str
  filterShiftType : Str
  filterLocation : Str
  filterMobile : Str
  filterRecurring : Str
  selectedWeekdays : List Str
  searchDate : Option Int
  searchTime : Str
deriving DecidableEq

/-- All criteria unset: the dashboard's initial filter state. -/
def emptyCriteria : Criteria :=
  { searchTerm := []
    filterShiftType := str ("all")
    filterLocation := str ("all")
    filterMobile := str ("all")
    filterRecurring := str ("all")
    selectedWeekdays := []
    searchDate := none
    searchTime := [] }

/-- `Array.prototype.filter` with a callback that may throw: elements are
tested left to right and the first exception aborts the whole call. -/
def exceptFilter (p : α → Except String Bool) : List α → Except String (List α)
  | [] => .ok []
  | a :: as =>
    match p a with
    | .error e => .error e
    | .ok b =>
      match exceptFilter p as with
      | .error e => .error e
      | .ok r => .ok (if b then a :: r else r)

/-- The text-search predicate: any of the searchable fields contains the
(lower-cased) search text; absent fields are treated as `''`. -/
def searchableMatch (search : Str) (e : Entry) : Bool :=
  let fields : List Str :=
    [ e.first_name ++ ' ' :: e.last_name
    , e.phone_number
    , e.location.getD []
    , e.notes.getD []
    , e.shift_type.getD []
    , e.weekdays.getD []
    , e.guard_id_number
    , e.e_pin_number ]
  fields.any (fun f => inclStr search (toLowerStr f))

/-- The weekday criterion of the dashboard filter: a record with falsy
`weekdays` never matches; otherwise some selected weekday must equal one of
the *raw* (untrimmed) comma-split tokens of `weekdays`. -/
def weekdayFilterPred (selected : List Str) (e : Entry) : Bool :=
  match e.weekdays with
  | none => false
  | some w =>
    if w.isEmpty then false
    else selected.any (fun day => (splitComma w).any (fun tok => decide (day = tok)))

/-- The date criterion: `searchDate` must fall within
`[new Date(entry.date), new Date(entry.end_date || entry.date)]`; a
comparison against an invalid date (missing field) is false. -/
def dateFilterPred (sd : Int) (e : Entry) : Bool :=
  (match e.date with
   | some s => decide (s ≤ sd)
   | none => false) &&
  (match e.end_date <|> e.date with
   | some en => decide (sd ≤ en)
   | none => false)

/-- The time criterion: a record with a falsy `start_time` or `end_time`
always matches; otherwise `searchTime` must lie within
`[start_time, end_time]` (JS string comparison, inclusive). -/
def timeFilterPred (t : Str) (e : Entry) : Bool :=
  match e.start_time, e.end_time with
  | some st, some et =>
    if st.isEmpty || et.isEmpty then true
    else strLe st t && strLe t et
  | _, _ => true

/-- The location criterion: `entry.location.split(',')`, trimmed, must
contain the selected location.  A record missing `location` makes the
callback throw (`undefined.split`). -/
def locationFilterStage (loc : Str) (e : Entry) : Except String Bool :=
  match e.location with
  | none => .error ("TypeError: cannot read properties of undefined")
  | some l => .ok ((splitComma l).any (fun tok => decide (trimStr tok = loc)))

/-- The successive filter stages of the `filteredEntries` memo, in source
order; `none` marks a stage whose criterion is unset and which is skipped. -/
def stagePreds (c : Criteria) : List (Option (Entry → Except String Bool)) :=
  [ if c.searchTerm.isEmpty then none
    else some (fun e => .ok (searchableMatch (toLowerStr c.searchTerm) e))
  , if c.filterShiftType = str ("all") then none
    else some (fun e => .ok (decide (e.shift_type = some c.filterShiftType)))
  , if c.filterLocation = str ("all") then none
    else some (locationFilterStage c.filterLocation)
  , if c.filterMobile = str ("all") then none
    else some (fun e => .ok (decide (e.mobile_deployable = some c.filterMobile)))
  , if c.filterRecurring = str ("all") then none
    else some (fun e => .ok (decide (e.is_recurring = some (decide (c.filterRecurring = str ("yes"))))))
  , if c.selectedWeekdays.isEmpty then none
    else some (fun e => .ok (weekdayFilterPred c.selectedWeekdays e))
  , match c.searchDate with
    | none => none
    | some sd => some (fun e => .ok (dateFilterPred sd e))
  , if c.searchTime.isEmpty then none
    else some (fun e => .ok (timeFilterPred c.searchTime e)) ]

/-- Run the applicable filter stages in order. -/
def applyStages : List (Option (Entry → Except String Bool)) → List Entry →
    Except String (List Entry)
  | [], l => .ok l
  | none :: ps, l => applyStages ps l
  | some p :: ps, l =>
    match exceptFilter p l with
    | .error e => .error e
    | .ok l' => applyStages ps l'

/-- The predicate-filter part of the `filteredEntries` memo (lines 185-254):
the compound AND of all set criteria, applied stage by stage. -/
def filterEntries (c : Criteria) (l : List Entry) : Except String (List Entry) :=
  applyStages (stagePreds c) l

/-- `"$\x7bfirst_name\x7d $\x7blast_name\x7d"`: the sort key for the
`name` field. -/
def nameKey (e : Entry) : Str := e.first_name ++ ' ' :: e.last_name

/-- JS `new Date(a).getTime() - new Date(b).getTime()` for the `date` and
`created_at` comparisons: with a missing operand the subtraction is `NaN`,
which ES `SortCompare` treats as `+0`. -/
def jsDateDiff : Option Int → Option Int → Int
  | some x, some y => x - y
  | _, _ => 0

/-- The `switch (sortField)` comparison of the sorter.  Field names are the
source's (`"name" | "date" | "location" | "shift_type" | "created_at"`); any
other value falls through the switch and leaves `comparison = 0`.  Sorting by
`location` reads `a.location.localeCompare(b.location)`: it throws when
`a.location` is missing, and compares against the string `"undefined"` when
only `b.location` is missing. -/
def entryComparison (field : Str) (a b : Entry) : Except String Int :=
  if field = str ("name") then .ok (strCmp (nameKey a) (nameKey b))
  else if field = str ("date") then .ok (jsDateDiff a.date b.date)
  else if field = str ("location") then
    match a.location with
    | none => .error ("TypeError: cannot read properties of undefined")
    | some la => .ok (strCmp la (b.location.getD (str ("undefined"))))
  else if field = str ("shift_type") then
    .ok (strCmp (a.shift_type.getD []) (b.shift_type.getD []))
  else if field = str ("created_at") then
    .ok (jsDateDiff (some (a.created_at.getD 0)) (some (b.created_at.getD 0)))
  else .ok 0

/-- The full comparator: `direction === "asc" ? comparison : -comparison`. -/
def entryCmp (field dir : Str) (a b : Entry) : Except String Int :=
  match entryComparison field a b with
  | .error e => .error e
  | .ok c => .ok (if dir = str ("asc") then c else -c)

/-- Stable insertion of `a` into `l`: `a` goes immediately before the first
element `b` with `cmp a b < 0`, hence after every earlier equal element. -/
def insertE (cmp : α → α → Except String Int) (a : α) : List α → Except String (List α)
  | [] => .ok [a]
  | b :: bs =>
    match cmp a b with
    | .error e => .error e
    | .ok c =>
      if c < 0 then .ok (a :: b :: bs)
      else
        match insertE cmp a bs with
        | .error e => .error e
        | .ok r => .ok (b :: r)

/-- Stable insertion sort in the `Except` monad: elements are inserted in
input order, so equal-comparing elements keep their relative order.  This is
the embedding of `Array.prototype.sort` (stable since ES2019); a comparator
exception propagates out of the sort. -/
def sortGoE (cmp : α → α → Except String Int) : List α → List α → Except String (List α)
  | [], acc => .ok acc
  | a :: as, acc =>
    match insertE cmp a acc with
    | .error e => .error e
    | .ok acc' => sortGoE cmp as acc'

/-- The multi-key sorter of the `filteredEntries` memo (lines 257-277). -/
def sortEntriesE (field dir : Str) (l : List Entry) : Except String (List Entry) :=
  sortGoE (entryCmp field dir) l []

/-- Pure counterparts of `insertE`/`sortGoE`, used to state and prove the
order-theoretic properties once the comparator is known not to throw. -/
def insertCmp (cmp : α → α → Int) (a : α) : List α → List α
  | [] => [a]
  | b :: bs => if cmp a b < 0 then a :: b :: bs else b :: insertCmp cmp a bs

def sortGo (cmp : α → α → Int) : List α → List α → List α
  | [], acc => acc
  | a :: as, acc => sortGo cmp as (insertCmp cmp a acc)

def sortByCmp (cmp : α → α → Int) (l : List α) : List α := sortGo cmp l []

/-- `WEEKDAY_MAP`: weekday names to `getDay` numbers; an unknown token maps
to `undefined` (`none`), which matches no weekday number. -/
def weekdayMap (w : Str) : Option Int :=
  if w = str ("sunday") then some 0
  else if w = str ("monday") then some 1
  else if w = str ("tuesday") then some 2
  else if w = str ("wednesday") then some 3
  else if w = str ("thursday") then some 4
  else if w = str ("friday") then some 5
  else if w = str ("saturday") then some 6
  else none

/-- `date-fns parseISO`, applied to an entry's stored date: a present value
parses to its day number; a missing value raises (`parseISO` calls a string
method on its argument). -/
def parseISO : Option Int → Except String Int
  | some d => .ok d
  | none => .error ("TypeError: parseISO of undefined")

/-- `date-fns isWithinInterval` (v3 semantics): the two interval bounds are
normalized (sorted), so a reversed interval is treated as its mirror. -/
def isWithinInterval (t s e : Int) : Bool :=
  decide (min s e ≤ t) && decide (t ≤ max s e)

/-- The per-entry test of `getEntriesForDate`: range containment
(`isWithinInterval` or equality with either bound), then — only for a
recurring entry with truthy `weekdays` — membership of the day's weekday in
the trimmed comma-split weekday tokens. -/
def projActive (day : Int) (e : Entry) : Except String Bool :=
  match parseISO e.date with
  | .error err => .error err
  | .ok entryStart =>
    match (match e.end_date with
           | some d2 => parseISO (some d2)
           | none => .ok entryStart) with
    | .error err => .error err
    | .ok entryEnd =>
      let isInRange := isWithinInterval day entryStart entryEnd ||
        decide (day = entryStart) || decide (day = entryEnd)
      if !isInRange then .ok false
      else
        match e.is_recurring, e.weekdays with
        | some true, some w =>
          if w.isEmpty then .ok true
          else .ok ((splitComma w).any (fun wd => decide (weekdayMap (trimStr wd) = some (getDay day))))
        | _, _ => .ok true

/-- The calendar activity projector `getEntriesForDate`. -/
def getEntriesForDate (entries : List Entry) (day : Int) : Except String (List Entry) :=
  exceptFilter (projActive day) entries

/-- The five recognized sort fields of the dashboard. -/
def validSortFields : List Str :=
  [str ("name"), str ("date"), str ("location"), str ("shift_type"), str ("created_at")]

/-- The per-field sort key of a record: a string key or a numeric key. -/
def sortKey (field : Str) (e : Entry) : Str ⊕ Int :=
  if field = str ("name") then .inl (nameKey e)
  else if field = str ("date") then .inr (e.date.getD 0)
  else if field = str ("location") then .inl (e.location.getD [])
  else if field = str ("shift_type") then .inl (e.shift_type.getD [])
  else if field = str ("created_at") then .inr (e.created_at.getD 0)
  else .inr 0

/-- Records with equal sort keys for the given field. -/
def sameSortKey (field : Str) (a b : Entry) : Bool :=
  decide (sortKey field a = sortKey field b)

/-! ## Array identity model

The `filteredEntries` memo starts from `let filtered = [...entries]` — a
fresh copy — then each applicable `.filter` stage produces a further fresh
array, and `.sort` finally mutates *in place* whichever array `filtered`
points to at that moment.  To settle the frame claim we model arrays with
identity: a store of arrays addressed by index, where `.filter` allocates
and `.sort` overwrites one address. -/

abbrev Store := List (List Entry)

/-- Run the filter stages over the store: each applicable stage reads the
array at the current address and allocates a fresh array for its result. -/
def applyStagesS : List (Option (Entry → Except String Bool)) → Store → Nat →
    Except String (Store × Nat)
  | [], s, i => .ok (s, i)
  | none :: ps, s, i => applyStagesS ps s i
  | some p :: ps, s, i =>
    match exceptFilter p ((s.get? i).getD []) with
    | .error e => .error e
    | .ok res => applyStagesS ps (s ++ [res]) s.length

/-- The whole `filteredEntries` computation over the store: copy the input
array (`[...entries]`), run the filter stages, then sort the current array
in place and return its address. -/
def filteredEntriesProg (s : Store) (inputId : Nat) (c : Criteria) (field dir : Str) :
    Except String (Store × Nat) :=
  let arr := (s.get? inputId).getD []
  match applyStagesS (stagePreds c) (s ++ [arr]) s.length with
  | .error e => .error e
  | .ok (s1, fid) =>
    match sortGoE (entryCmp field dir) ((s1.get? fid).getD []) [] with
    | .error e => .error e
    | .ok sorted => .ok (s1.set fid sorted, fid)

/-! ## Concrete records used by the witnesses and counterexamples -/

/-- A well-formed single-day record (owner merged in), used as a base. -/
def baseEntry : Entry :=
  { id := str ("e1")
    user_id := some (str ("u1"))
    date := some 0
    end_date := none
    start_time := none
    end_time := none
    shift_type := none
    location := some (str ("Berlin"))
    mobile_deployable := none
    notes := none
    is_recurring := some false
    weekdays := none
    created_at := none
    first_name := str ("Ana")
    last_name := str ("M")
    phone_number := str ("1")
    guard_id_number := str ("")
    e_pin_number := str ("") }

def wc1e : Entry :=
  { baseEntry with date := some (epochDay 2025 1 1), end_date := some (epochDay 2025 1 31)
                   is_recurring := some true, weekdays := none }

def wc2e : Entry := { baseEntry with date := some 10, end_date := some 5 }

def wc3e : Entry :=
  { baseEntry with is_recurring := some false, weekdays := some (str ("monday")) }

def wc4e : Entry := { baseEntry with location := none }

def wc5a : Entry := { baseEntry with id := str ("a"), date := some 9 }

def wc5b : Entry := { baseEntry with id := str ("b"), date := some 5 }

def wc6b : Entry := { baseEntry with id := str ("b"), shift_type := some (str ("earlyShift")) }

def w8e : Entry :=
  { baseEntry with start_time := some (str ("08:00")), end_time := some (str ("16:00")) }

def wste : Entry :=
  { baseEntry with date := some (epochDay 2025 1 1), end_date := some (epochDay 2025 1 31)
                   is_recurring := some true, weekdays := some (str ("monday, tuesday")) }

/-! ## Properties of the filter pipeline -/

theorem exceptFilter_ok_pure (p : α → Bool) (l : List α) :
    exceptFilter (fun a => .ok (p a)) l = .ok (l.filter p) := by
  induction l with
  | nil => rfl
  | cons a as ih => simp only [exceptFilter, ih, List.filter_cons]

theorem exceptFilter_sublist {p : α → Except String Bool} {l r : List α}
    (h : exceptFilter p l = .ok r) : r.Sublist l := by
  induction l generalizing r with
  | nil => cases h; exact List.Sublist.refl _
  | cons a as ih =>
    simp only [exceptFilter] at h
    cases hp : p a with
    | error e => rw [hp] at h; cases h
    | ok b =>
      rw [hp] at h
      cases hr : exceptFilter p as with
      | error e => rw [hr] at h; cases h
      | ok r' =>
        rw [hr] at h
        cases h
        cases b with
        | true => simpa using (ih hr).cons₂ a
        | false => simpa using (ih hr).cons a

theorem exceptFilter_mem {p : α → Except String Bool} {l r : List α}
    (h : exceptFilter p l = .ok r) {a : α} (ha : a ∈ r) : p a = .ok true := by
  induction l generalizing r with
  | nil => cases h; cases ha
  | cons x xs ih =>
    simp only [exceptFilter] at h
    cases hp : p x with
    | error e => rw [hp] at h; cases h
    | ok b =>
      rw [hp] at h
      cases hr : exceptFilter p xs with
      | error e => rw [hr] at h; cases h
      | ok r' =>
        rw [hr] at h
        cases h
        cases b with
        | true =>
          simp only [if_true] at ha
          rcases List.mem_cons.1 ha with rfl | ha'
          · exact hp
          · exact ih hr ha'
        | false => exact ih hr (by simpa using ha)

theorem exceptFilter_ok_of_all {p : α → Except String Bool} {l : List α}
    (h : ∀ a ∈ l, ∃ b, p a = .ok b) : ∃ r, exceptFilter p l = .ok r := by
  induction l with
  | nil => exact ⟨[], rfl⟩
  | cons a as ih =>
    obtain ⟨b, hb⟩ := h a (List.mem_cons_self a as)
    obtain ⟨r, hr⟩ := ih (fun x hx => h x (List.mem_cons_of_mem a hx))
    exact ⟨if b then a :: r else r, by simp [exceptFilter, hb, hr]⟩

theorem exceptFilter_error_of_mem {p : α → Except String Bool} {l : List α} {a : α}
    (ha : a ∈ l) {m0 : String} (he : p a = .error m0) :
    ∃ m, exceptFilter p l = .error m := by
  induction l with
  | nil => cases ha
  | cons x xs ih =>
    rcases List.mem_cons.1 ha with rfl | ha'
    · exact ⟨m0, by simp [exceptFilter, he]⟩
    · simp only [exceptFilter]
      cases hp : p x with
      | error e => exact ⟨e, rfl⟩
      | ok b =>
        obtain ⟨m, hm⟩ := ih ha'
        exact ⟨m, by simp [hm]⟩

theorem applyStages_sublist {ps : List (Option (Entry → Except String Bool))}
    {l r : List Entry} (h : applyStages ps l = .ok r) : r.Sublist l := by
  induction ps generalizing l with
  | nil => cases h; exact List.Sublist.refl _
  | cons q ps ih =>
    cases q with
    | none => exact ih h
    | some p =>
      simp only [applyStages] at h
      cases hf : exceptFilter p l with
      | error e => rw [hf] at h; cases h
      | ok l' =>
        rw [hf] at h
        exact (ih h).trans (exceptFilter_sublist hf)

theorem applyStages_mem_pred {ps : List (Option (Entry → Except String Bool))}
    {l r : List Entry} (h : applyStages ps l = .ok r)
    {p : Entry → Except String Bool} (hp : some p ∈ ps) {a : Entry} (ha : a ∈ r) :
    p a = .ok true := by
  induction ps generalizing l with
  | nil => cases hp
  | cons q ps ih =>
    rcases List.mem_cons.1 hp with hq | hp'
    · cases hq
      simp only [applyStages] at h
      cases hf : exceptFilter p l with
      | error e => rw [hf] at h; cases h
      | ok l' =>
        rw [hf] at h
        exact exceptFilter_mem hf ((applyStages_sublist h).subset ha)
    · cases q with
      | none => exact ih h hp'
      | some p' =>
        simp only [applyStages] at h
        cases hf : exceptFilter p' l with
        | error e => rw [hf] at h; cases h
        | ok l' => rw [hf] at h; exact ih h hp'

theorem applyStages_ok_of_all {ps : List (Option (Entry → Except String Bool))}
    {l : List Entry} (h : ∀ p, some p ∈ ps → ∀ a ∈ l, ∃ b, p a = .ok b) :
    ∃ r, applyStages ps l = .ok r := by
  induction ps generalizing l with
  | nil => exact ⟨l, rfl⟩
  | cons q ps ih =>
    cases q with
    | none => exact ih (fun p hp => h p (List.mem_cons_of_mem _ hp))
    | some p =>
      obtain ⟨l', hl'⟩ := exceptFilter_ok_of_all (h p (List.mem_cons_self _ _))
      obtain ⟨r, hr⟩ := ih (fun p' hp' a ha =>
        h p' (List.mem_cons_of_mem _ hp') a ((exceptFilter_sublist hl').subset ha))
      exact ⟨r, by simp [applyStages, hl', hr]⟩

/-- With every criterion unset, no stage applies and the filter is the
identity. -/
theorem filterEntries_empty (l : List Entry) : filterEntries emptyCriteria l = .ok l := rfl

/-- The filter's output is always an order-preserving subsequence of its
input. -/
theorem filterEntries_sublist {c : Criteria} {l r : List Entry}
    (h : filterEntries c l = .ok r) : r.Sublist l :=
  applyStages_sublist h

theorem weekday_stage_mem {c : Criteria} (h : c.selectedWeekdays ≠ []) :
    some (fun e => Except.ok (weekdayFilterPred c.selectedWeekdays e)) ∈ stagePreds c := by
  have hie : c.selectedWeekdays.isEmpty = false := by
    cases hc : c.selectedWeekdays with
    | nil => exact absurd hc h
    | cons a as => rfl
  simp [stagePreds, hie]

theorem date_stage_mem {c : Criteria} {sd : Int} (h : c.searchDate = some sd) :
    some (fun e => Except.ok (dateFilterPred sd e)) ∈ stagePreds c := by
  simp [stagePreds, h]

theorem time_stage_mem {c : Criteria} (h : c.searchTime ≠ []) :
    some (fun e => Except.ok (timeFilterPred c.searchTime e)) ∈ stagePreds c := by
  have hie : c.searchTime.isEmpty = false := by
    cases hc : c.searchTime with
    | nil => exact absurd hc h
    | cons a as => rfl
  simp [stagePreds, hie]

/-- A record that survives the filter with a set date criterion satisfies the
date predicate. -/
theorem filterEntries_mem_date {c : Criteria} {l r : List Entry}
    (h : filterEntries c l = .ok r) {sd : Int} (hsd : c.searchDate = some sd)
    {e : Entry} (he : e ∈ r) : dateFilterPred sd e = true := by
  have hh := applyStages_mem_pred h (date_stage_mem hsd) he
  simpa using hh

/-- A record that survives the filter with a non-empty weekday criterion
satisfies the weekday predicate. -/
theorem filterEntries_mem_weekday {c : Criteria} {l r : List Entry}
    (h : filterEntries c l = .ok r) (hw : c.selectedWeekdays ≠ [])
    {e : Entry} (he : e ∈ r) : weekdayFilterPred c.selectedWeekdays e = true := by
  have hh := applyStages_mem_pred h (weekday_stage_mem hw) he
  simpa using hh

/-- Every applicable stage predicate succeeds on a record, as long as the
location stage is either unset or the record has its `location` field. -/
theorem stagePreds_ok {c : Criteria} {p : Entry → Except String Bool}
    (hp : some p ∈ stagePreds c) {e : Entry}
    (hloc : c.filterLocation = str ("all") ∨ e.location.isSome) :
    ∃ b, p e = .ok b := by
  simp only [stagePreds, List.mem_cons, List.not_mem_nil, or_false] at hp
  rcases hp with h | h | h | h | h | h | h | h
  · split at h
    · cases h
    · cases h; exact ⟨_, rfl⟩
  · split at h
    · cases h
    · cases h; exact ⟨_, rfl⟩
  · split at h
    · cases h
    · rename_i hcond
      cases h
      rcases hloc with hall | hsome
      · exact absurd hall hcond
      · cases hl : e.location with
        | none => rw [hl] at hsome; cases hsome
        | some L =>
          exact ⟨(splitComma L).any (fun tok => decide (trimStr tok = c.filterLocation)),
            by simp [locationFilterStage, hl]⟩
  · split at h
    · cases h
    · cases h; exact ⟨_, rfl⟩
  · split at h
    · cases h
    · cases h; exact ⟨_, rfl⟩
  · split at h
    · cases h
    · cases h; exact ⟨_, rfl⟩
  · cases hcd : c.searchDate with
    | none => rw [hcd] at h; cases h
    | some sd => rw [hcd] at h; cases h; exact ⟨_, rfl⟩
  · split at h
    · cases h
    · cases h; exact ⟨_, rfl⟩

/-- The filter completes (no exception) whenever the location criterion is
unset or every record still has its `location` field. -/
theorem filterEntries_ok_of_loc {c : Criteria} {l : List Entry}
    (h : c.filterLocation = str ("all") ∨ ∀ e ∈ l, e.location.isSome) :
    ∃ r, filterEntries c l = .ok r :=
  applyStages_ok_of_all (fun p hp a ha =>
    stagePreds_ok hp (h.imp id (fun hh => hh a ha)))

/-! ## Properties of the sorter -/

theorem mem_insertCmp {cmp : α → α → Int} {a x : α} {l : List α} :
    x ∈ insertCmp cmp a l ↔ x = a ∨ x ∈ l := by
  induction l with
  | nil => simp [insertCmp]
  | cons b bs ih =>
    simp only [insertCmp]
    split
    · simp [List.mem_cons]
    · simp only [List.mem_cons, ih]
      tauto

theorem insertE_ok {cmpE : α → α → Except String Int} {cmp : α → α → Int} {a : α}
    {l : List α} (h : ∀ b ∈ l, cmpE a b = .ok (cmp a b)) :
    insertE cmpE a l = .ok (insertCmp cmp a l) := by
  induction l with
  | nil => rfl
  | cons b bs ih =>
    have hb := h b (List.mem_cons_self b bs)
    have hrec := ih (fun x hx => h x (List.mem_cons_of_mem _ hx))
    simp only [insertE, insertCmp, hb, hrec]
    split <;> rfl

theorem sortGoE_ok {cmpE : α → α → Except String Int} {cmp : α → α → Int}
    {l acc : List α}
    (h : ∀ a ∈ l, ∀ b, (b ∈ acc ∨ b ∈ l) → cmpE a b = .ok (cmp a b)) :
    sortGoE cmpE l acc = .ok (sortGo cmp l acc) := by
  induction l generalizing acc with
  | nil => rfl
  | cons a as ih =>
    have ha : insertE cmpE a acc = .ok (insertCmp cmp a acc) :=
      insertE_ok (fun b hb => h a (List.mem_cons_self a as) b (Or.inl hb))
    simp only [sortGoE, sortGo, ha]
    refine ih (fun x hx b hb => h x (List.mem_cons_of_mem _ hx) b ?_)
    rcases hb with hb | hb
    · rcases mem_insertCmp.1 hb with rfl | hb'
      · exact Or.inr (List.mem_cons_self b as)
      · exact Or.inl hb'
    · exact Or.inr (List.mem_cons_of_mem _ hb)

theorem insertCmp_zero (a : α) (l : List α) :
    insertCmp (fun _ _ => (0 : Int)) a l = l ++ [a] := by
  induction l with
  | nil => rfl
  | cons b bs ih => simp [insertCmp, ih]

theorem sortGo_zero (l acc : List α) : sortGo (fun _ _ => (0 : Int)) l acc = acc ++ l := by
  induction l generalizing acc with
  | nil => simp [sortGo]
  | cons a as ih => simp [sortGo, insertCmp_zero, ih]

/-- An unrecognized sort field falls through the `switch`, so the comparator
is constantly zero. -/
theorem entryCmp_invalid {field dir : Str} (hf : field ∉ validSortFields)
    (a b : Entry) : entryCmp field dir a b = .ok 0 := by
  simp only [validSortFields, List.mem_cons, List.not_mem_nil, or_false, not_or] at hf
  obtain ⟨h1, h2, h3, h4, h5⟩ := hf
  simp only [entryCmp, entryComparison, if_neg h1, if_neg h2, if_neg h3, if_neg h4, if_neg h5]
  split <;> simp

/-- With an unrecognized sort field the sort is a silent no-op: it returns
the collection in its original order. -/
theorem sortEntriesE_invalid {field dir : Str} (hf : field ∉ validSortFields)
    (l : List Entry) : sortEntriesE field dir l = .ok l := by
  have h := @sortGoE_ok Entry (entryCmp field dir) (fun _ _ => 0) l []
    (fun a _ b _ => entryCmp_invalid hf a b)
  rw [sortEntriesE, h, sortGo_zero]
  rfl

/-! ## Stability of the sort

The comparators of the source are all induced by a sort key (a string or a
number per record); for such comparators the stable insertion sort keeps
equal-keyed records in their input order.  This is stated as: filtering the
output by any one key value yields exactly the input filtered by that key. -/

section StableSort

variable {α K : Type} [DecidableEq K]

theorem insertCmp_filter_key (key : α → K) (lt : K → K → Bool) (cmp : α → α → Int)
    (hsign : ∀ a b, cmp a b < 0 ↔ lt (key a) (key b) = true)
    (hirr : ∀ k, lt k k = false)
    (a : α) (l : List α) (k0 : K)
    (hs : l.Pairwise (fun x y => lt (key y) (key x) = false)) :
    (insertCmp cmp a l).filter (fun x => decide (key x = k0)) =
      if key a = k0 then l.filter (fun x => decide (key x = k0)) ++ [a]
      else l.filter (fun x => decide (key x = k0)) := by
  induction l with
  | nil =>
    by_cases hk : key a = k0 <;> simp [insertCmp, List.filter_cons, hk]
  | cons b bs ih =>
    obtain ⟨hb, hs'⟩ := List.pairwise_cons.1 hs
    simp only [insertCmp]
    by_cases hc : cmp a b < 0
    · rw [if_pos hc]
      have hlt : lt (key a) (key b) = true := (hsign a b).1 hc
      by_cases hk : key a = k0
      · have hnone : ∀ y ∈ b :: bs, ¬ (key y = k0) := by
          intro y hy hyk
          rcases List.mem_cons.1 hy with rfl | hy'
          · rw [hk, ← hyk] at hlt
            rw [hirr] at hlt
            cases hlt
          · have hyb := hb y hy'
            rw [hyk, ← hk] at hyb
            rw [hyb] at hlt
            cases hlt
        have hfe : (b :: bs).filter (fun x => decide (key x = k0)) = [] := by
          refine List.filter_eq_nil.2 (fun y hy => by simpa using hnone y hy)
        rw [if_pos hk]
        rw [List.filter_cons_of_pos (by simpa using hk), hfe]
        rfl
      · rw [if_neg hk]
        rw [List.filter_cons_of_neg (by simpa using hk)]
    · rw [if_neg hc]
      have ih' := ih hs'
      by_cases hbk : key b = k0 <;> by_cases hk : key a = k0 <;>
        simp [List.filter_cons, hbk, hk, ih']

theorem insertCmp_pairwise_key (key : α → K) (lt : K → K → Bool) (cmp : α → α → Int)
    (hsign : ∀ a b, cmp a b < 0 ↔ lt (key a) (key b) = true)
    (hirr : ∀ k, lt k k = false)
    (htrans : ∀ k1 k2 k3, lt k1 k2 = true → lt k2 k3 = true → lt k1 k3 = true)
    (a : α) (l : List α)
    (hs : l.Pairwise (fun x y => lt (key y) (key x) = false)) :
    (insertCmp cmp a l).Pairwise (fun x y => lt (key y) (key x) = false) := by
  induction l with
  | nil => simp [insertCmp]
  | cons b bs ih =>
    obtain ⟨hb, hs'⟩ := List.pairwise_cons.1 hs
    simp only [insertCmp]
    by_cases hc : cmp a b < 0
    · rw [if_pos hc]
      have hab : lt (key a) (key b) = true := (hsign a b).1 hc
      refine List.pairwise_cons.2 ⟨?_, hs⟩
      intro y hy
      rcases List.mem_cons.1 hy with rfl | hy'
      · cases hba : lt (key y) (key a) with
        | false => rfl
        | true =>
          have := htrans _ _ _ hab hba
          rw [hirr] at this
          cases this
      · cases hya : lt (key y) (key a) with
        | false => rfl
        | true =>
          have := htrans _ _ _ hya hab
          rw [hb y hy'] at this
          cases this
    · rw [if_neg hc]
      refine List.pairwise_cons.2 ⟨?_, ih hs'⟩
      intro y hy
      rcases mem_insertCmp.1 hy with rfl | hy'
      · have : ¬ (lt (key y) (key b) = true) := fun hh => hc ((hsign y b).2 hh)
        exact Bool.not_eq_true _ ▸ (by simpa using this)
      · exact hb y hy'

theorem sortGo_filter_key (key : α → K) (lt : K → K → Bool) (cmp : α → α → Int)
    (hsign : ∀ a b, cmp a b < 0 ↔ lt (key a) (key b) = true)
    (hirr : ∀ k, lt k k = false)
    (htrans : ∀ k1 k2 k3, lt k1 k2 = true → lt k2 k3 = true → lt k1 k3 = true)
    (l acc : List α) (k0 : K)
    (hacc : acc.Pairwise (fun x y => lt (key y) (key x) = false)) :
    (sortGo cmp l acc).filter (fun x => decide (key x = k0)) =
      acc.filter (fun x => decide (key x = k0)) ++ l.filter (fun x => decide (key x = k0)) := by
  induction l generalizing acc with
  | nil => simp [sortGo]
  | cons a as ih =>
    simp only [sortGo]
    rw [ih _ (insertCmp_pairwise_key key lt cmp hsign hirr htrans a acc hacc)]
    rw [insertCmp_filter_key key lt cmp hsign hirr a acc k0 hacc]
    by_cases hk : key a = k0 <;>
      simp [List.filter_cons, hk, List.append_assoc]

theorem sortByCmp_filter_key (key : α → K) (lt : K → K → Bool) (cmp : α → α → Int)
    (hsign : ∀ a b, cmp a b < 0 ↔ lt (key a) (key b) = true)
    (hirr : ∀ k, lt k k = false)
    (htrans : ∀ k1 k2 k3, lt k1 k2 = true → lt k2 k3 = true → lt k1 k3 = true)
    (l : List α) (k0 : K) :
    (sortByCmp cmp l).filter (fun x => decide (key x = k0)) =
      l.filter (fun x => decide (key x = k0)) := by
  have h := sortGo_filter_key key lt cmp hsign hirr htrans l [] k0 List.Pairwise.nil
  simpa [sortByCmp] using h

end StableSort

theorem strLt_irrefl (s : Str) : strLt s s = false := by
  induction s with
  | nil => rfl
  | cons c cs ih => simp [strLt, ih]

theorem strLt_trans : ∀ {a b c : Str},
    strLt a b = true → strLt b c = true → strLt a c = true := by
  intro a
  induction a with
  | nil =>
    intro b c hab hbc
    cases b with
    | nil => cases hab
    | cons y ys =>
      cases c with
      | nil => cases hbc
      | cons z zs => rfl
  | cons x xs ih =>
    intro b c hab hbc
    cases b with
    | nil => cases hab
    | cons y ys =>
      cases c with
      | nil => cases hbc
      | cons z zs =>
        simp only [strLt] at hab hbc ⊢
        by_cases h1 : x < y
        · by_cases h2 : y < z
          · simp [lt_trans h1 h2]
          · rw [if_neg h2] at hbc
            by_cases h3 : z < y
            · rw [if_pos h3] at hbc; cases hbc
            · have : y = z := le_antisymm (not_lt.1 h3) (not_lt.1 h2)
              simp [this ▸ h1]
        · rw [if_neg h1] at hab
          by_cases h1' : y < x
          · rw [if_pos h1'] at hab; cases hab
          · have hxy : x = y := le_antisymm (not_lt.1 h1') (not_lt.1 h1)
            rw [if_neg h1'] at hab
            by_cases h2 : y < z
            · simp [hxy ▸ h2]
            · rw [if_neg h2] at hbc
              by_cases h3 : z < y
              · rw [if_pos h3] at hbc; cases hbc
              · have hyz : y = z := le_antisymm (not_lt.1 h3) (not_lt.1 h2)
                rw [if_neg h3] at hbc
                have hxz : ¬ x < z := by rw [hxy, hyz]; exact lt_irrefl z
                have hzx : ¬ z < x := by rw [hxy, hyz]; exact lt_irrefl z
                simp [hxz, hzx, ih hab hbc]

theorem strLt_asymm {a b : Str} (h : strLt a b = true) : strLt b a = false := by
  cases hba : strLt b a with
  | false => rfl
  | true =>
    have := strLt_trans h hba
    rw [strLt_irrefl] at this
    cases this

theorem strCmp_lt_iff (a b : Str) : strCmp a b < 0 ↔ strLt a b = true := by
  unfold strCmp
  split_ifs with h1 h2 <;> simp [h1]

theorem strCmp_neg_lt_iff (a b : Str) : -(strCmp a b) < 0 ↔ strLt b a = true := by
  unfold strCmp
  split_ifs with h1 h2
  · simp [strLt_asymm h1]
  · simp [h2]
  · simp [h2]

/-- Wrapper: if the comparator agrees on `l` with a pure comparator that is
sign-induced by a key, the sort succeeds and is stable on each key class. -/
theorem sort_stable_of_key {K : Type} [DecidableEq K] (key : Entry → K)
    (lt : K → K → Bool) (cmpP : Entry → Entry → Int)
    {field dir : Str} {l : List Entry}
    (hcmp : ∀ a b, a ∈ l → b ∈ l → entryCmp field dir a b = .ok (cmpP a b))
    (hsign : ∀ a b, cmpP a b < 0 ↔ lt (key a) (key b) = true)
    (hirr : ∀ k, lt k k = false)
    (htrans : ∀ k1 k2 k3, lt k1 k2 = true → lt k2 k3 = true → lt k1 k3 = true)
    (k0 : K) :
    ∃ out, sortEntriesE field dir l = .ok out ∧
      out.filter (fun x => decide (key x = k0)) = l.filter (fun x => decide (key x = k0)) := by
  have ht : sortGoE (entryCmp field dir) l [] = .ok (sortGo cmpP l []) :=
    sortGoE_ok (fun a ha b hb => hcmp a b ha (hb.resolve_left (by simp)))
  refine ⟨sortGo cmpP l [], ht, ?_⟩
  have h := sortByCmp_filter_key key lt cmpP hsign hirr htrans l k0
  simpa [sortByCmp] using h

/-! ## Properties of the calendar activity projector -/

theorem exceptFilter_mem_of {p : α → Except String Bool} {l r : List α}
    (h : exceptFilter p l = .ok r) {a : α} (ha : a ∈ l) (hp : p a = .ok true) :
    a ∈ r := by
  induction l generalizing r with
  | nil => cases ha
  | cons x xs ih =>
    simp only [exceptFilter] at h
    cases hx : p x with
    | error e => rw [hx] at h; cases h
    | ok b =>
      rw [hx] at h
      cases hr : exceptFilter p xs with
      | error e => rw [hr] at h; cases h
      | ok r' =>
        rw [hr] at h
        cases h
        rcases List.mem_cons.1 ha with rfl | ha'
        · rw [hp] at hx
          cases hx
          simp
        · have := ih hr ha'
          split <;> simp [this]

/-- A record with a present `date` never makes the projector throw. -/
theorem projActive_ok {e : Entry} {day : Int} (hd : e.date.isSome) :
    ∃ b, projActive day e = .ok b := by
  obtain ⟨s, hs⟩ := Option.isSome_iff_exists.1 hd
  rcases hr : e.is_recurring with _ | b <;>
    rcases hwd : e.weekdays with _ | w <;>
    cases hen : e.end_date <;>
    simp only [projActive, hs, hen, hr, hwd, parseISO] <;>
    split <;>
    first
      | exact ⟨false, rfl⟩
      | exact ⟨true, rfl⟩
      | (cases b <;> simp only [] <;> first
          | exact ⟨true, rfl⟩
          | (split <;> exact ⟨_, rfl⟩))

/-- A record with a missing `date` makes the projector throw. -/
theorem getEntriesForDate_error {entries : List Entry} {day : Int} {e : Entry}
    (he : e ∈ entries) (hd : e.date = none) :
    ∃ m, getEntriesForDate entries day = .error m := by
  have hp : projActive day e = .error ("TypeError: parseISO of undefined") := by
    simp [projActive, hd, parseISO]
  exact exceptFilter_error_of_mem he hp

/-- The projector completes whenever every record has its `date`. -/
theorem getEntriesForDate_ok {entries : List Entry} {day : Int}
    (h : ∀ e ∈ entries, e.date.isSome) :
    ∃ r, getEntriesForDate entries day = .ok r :=
  exceptFilter_ok_of_all (fun e he => projActive_ok (h e he))

/-- A recurring record whose `weekdays` is absent or the empty string skips
the weekday check entirely: inside its date range it is always active. -/
theorem projActive_empty_weekdays {e : Entry} {day s en : Int}
    (hd : e.date = some s)
    (hrec : e.is_recurring = some true)
    (hw : e.weekdays = none ∨ e.weekdays = some [])
    (hend : e.end_date = some en ∨ (e.end_date = none ∧ en = s))
    (h1 : s ≤ day) (h2 : day ≤ en) :
    projActive day e = .ok true := by
  have hrange : isWithinInterval day s en = true := by
    simp only [isWithinInterval, Bool.and_eq_true, decide_eq_true_eq]
    exact ⟨le_trans (min_le_left _ _) h1, le_trans h2 (le_max_right _ _)⟩
  rcases hend with hen | ⟨hen, rfl⟩ <;>
    rcases hw with hw | hw <;>
    simp [projActive, hd, hen, parseISO, hrange, hrec, hw]

/-- A recurring record with a non-empty `weekdays` string, inside its date
range: active exactly when the day's weekday number matches one of the
*trimmed* comma-split weekday tokens. -/
theorem projActive_recurring {e : Entry} {day s en : Int} {w : Str}
    (hd : e.date = some s) (hen : e.end_date = some en)
    (hrec : e.is_recurring = some true) (hw : e.weekdays = some w) (hwne : w ≠ [])
    (h1 : s ≤ day) (h2 : day ≤ en) :
    projActive day e =
      .ok ((splitComma w).any (fun wd => decide (weekdayMap (trimStr wd) = some (getDay day)))) := by
  have hrange : isWithinInterval day s en = true := by
    simp only [isWithinInterval, Bool.and_eq_true, decide_eq_true_eq]
    exact ⟨le_trans (min_le_left _ _) h1, le_trans h2 (le_max_right _ _)⟩
  have hne : w.isEmpty = false := by
    cases w with
    | nil => exact absurd rfl hwne
    | cons a as => rfl
  simp [projActive, hd, hen, parseISO, hrange, hrec, hw, hne]

/-- A non-recurring record with a reversed date range (`end_date < date`):
the projector treats it as active on every day of the *mirrored* interval
`[end_date, date]` (the modelled interval check normalizes the bounds, and
the two `isSameDay` disjuncts land inside that interval). -/
theorem projActive_reversed {e : Entry} {day s en : Int}
    (hd : e.date = some s) (hen : e.end_date = some en) (hlt : en < s)
    (hnr : e.is_recurring ≠ some true) :
    projActive day e = .ok (decide (en ≤ day) && decide (day ≤ s)) := by
  have hmin : min s en = en := min_eq_right (le_of_lt hlt)
  have hmax : max s en = s := max_eq_left (le_of_lt hlt)
  have hrange : (isWithinInterval day s en || decide (day = s) || decide (day = en)) =
      (decide (en ≤ day) && decide (day ≤ s)) := by
    simp only [isWithinInterval, hmin, hmax]
    by_cases hds : day = s
    · subst hds
      simp [le_of_lt hlt]
    · by_cases hde : day = en
      · subst hde
        simp [le_of_lt hlt]
      · simp [hds, hde]
  rcases hr : e.is_recurring with _ | b
  · cases hwd : e.weekdays <;> cases hx : (decide (en ≤ day) && decide (day ≤ s)) <;>
      simp [projActive, hd, hen, parseISO, hrange, hx, hr, hwd]
  · cases b with
    | true => exact absurd hr hnr
    | false =>
      cases hwd : e.weekdays <;> cases hx : (decide (en ≤ day) && decide (day ≤ s)) <;>
        simp [projActive, hd, hen, parseISO, hrange, hx, hr, hwd]

/-- Characterization of the filter's weekday criterion: a record matches a
non-empty selection exactly when its `weekdays` string is present and
non-empty and some selected weekday equals one of its *raw* (untrimmed)
comma-split tokens — independently of `is_recurring`. -/
theorem weekdayFilterPred_iff (sel : List Str) (e : Entry) :
    weekdayFilterPred sel e = true ↔
      ∃ w, e.weekdays = some w ∧ w ≠ [] ∧ ∃ d ∈ sel, d ∈ splitComma w := by
  unfold weekdayFilterPred
  cases hw : e.weekdays with
  | none => simp
  | some w =>
    cases w with
    | nil => simp
    | cons c cs =>
      simp only [List.isEmpty_cons, if_neg (by simp : ¬ (false = true))]
      constructor
      · intro h
        obtain ⟨d, hd, hmem⟩ := List.any_eq_true.1 h
        obtain ⟨tok, htok, heq⟩ := List.any_eq_true.1 hmem
        exact ⟨c :: cs, rfl, by simp, d, hd, (of_decide_eq_true heq) ▸ htok⟩
      · rintro ⟨w', hw', hne, d, hd, hmem⟩
        cases hw'
        exact List.any_eq_true.2 ⟨d, hd, List.any_eq_true.2 ⟨d, hmem, by simp⟩⟩

/-- The weekday criterion never reads `is_recurring`. -/
theorem weekdayFilterPred_ignores_recurring (sel : List Str) (e : Entry) (b : Option Bool) :
    weekdayFilterPred sel { e with is_recurring := b } = weekdayFilterPred sel e := rfl

/-! ## Membership through the monadic sort -/

theorem insertE_mem {cmpE : α → α → Except String Int} {a : α} {l r : List α}
    (h : insertE cmpE a l = .ok r) {x : α} (hx : x ∈ r) : x = a ∨ x ∈ l := by
  induction l generalizing r with
  | nil => cases h; simpa using hx
  | cons b bs ih =>
    simp only [insertE] at h
    cases hc : cmpE a b with
    | error e => rw [hc] at h; cases h
    | ok c =>
      rw [hc] at h
      replace h : (if c < 0 then Except.ok (a :: b :: bs)
          else match insertE cmpE a bs with
            | .error e => Except.error e
            | .ok r => Except.ok (b :: r)) = Except.ok r := h
      by_cases hlt : c < 0
      · rw [if_pos hlt] at h
        cases h
        rcases List.mem_cons.1 hx with rfl | hx'
        · exact Or.inl rfl
        · exact Or.inr hx'
      · rw [if_neg hlt] at h
        cases hr : insertE cmpE a bs with
        | error e => rw [hr] at h; cases h
        | ok r' =>
          rw [hr] at h
          cases h
          rcases List.mem_cons.1 hx with rfl | hx'
          · exact Or.inr (List.mem_cons_self _ _)
          · rcases ih hr hx' with rfl | hbs
            · exact Or.inl rfl
            · exact Or.inr (List.mem_cons_of_mem _ hbs)

theorem sortGoE_mem {cmpE : α → α → Except String Int} {l acc out : List α}
    (h : sortGoE cmpE l acc = .ok out) {x : α} (hx : x ∈ out) : x ∈ l ∨ x ∈ acc := by
  induction l generalizing acc with
  | nil => cases h; exact Or.inr hx
  | cons a as ih =>
    simp only [sortGoE] at h
    cases hi : insertE cmpE a acc with
    | error e => rw [hi] at h; cases h
    | ok acc' =>
      rw [hi] at h
      rcases ih h with has | hacc'
      · exact Or.inl (List.mem_cons_of_mem _ has)
      · rcases insertE_mem hi hacc' with rfl | hacc
        · exact Or.inl (List.mem_cons_self _ _)
        · exact Or.inr hacc

theorem applyStagesS_extends {ps : List (Option (Entry → Except String Bool))}
    {s s' : Store} {i i' : Nat}
    (h : applyStagesS ps s i = .ok (s', i')) :
    ∃ ext, s' = s ++ ext := by
  induction ps generalizing s i with
  | nil => cases h; exact ⟨[], by simp⟩
  | cons q ps ih =>
    cases q with
    | none => exact ih h
    | some p =>
      simp only [applyStagesS] at h
      cases hf : exceptFilter p ((s.get? i).getD []) with
      | error e => rw [hf] at h; cases h
      | ok res =>
        rw [hf] at h
        obtain ⟨ext, hext⟩ := ih h
        exact ⟨[res] ++ ext, by simp [hext]⟩

theorem applyStagesS_id_bound {ps : List (Option (Entry → Except String Bool))}
    {s s' : Store} {i i' n : Nat}
    (h : applyStagesS ps s i = .ok (s', i'))
    (hn : n ≤ i) (hns : n < s.length) (his : i < s.length) :
    n ≤ i' ∧ i' < s'.length := by
  induction ps generalizing s i with
  | nil => cases h; exact ⟨hn, his⟩
  | cons q ps ih =>
    cases q with
    | none => exact ih h hn hns his
    | some p =>
      simp only [applyStagesS] at h
      cases hf : exceptFilter p ((s.get? i).getD []) with
      | error e => rw [hf] at h; cases h
      | ok res =>
        rw [hf] at h
        refine ih h (le_of_lt hns) ?_ ?_ <;> simp [lt_of_lt_of_le hns (Nat.le_succ _)]

theorem applyStagesS_contents {ps : List (Option (Entry → Except String Bool))}
    {s s' : Store} {i i' : Nat}
    (h : applyStagesS ps s i = .ok (s', i')) :
    ∀ e ∈ (s'.get? i').getD [], e ∈ (s.get? i).getD [] := by
  induction ps generalizing s i with
  | nil => cases h; exact fun e he => he
  | cons q ps ih =>
    cases q with
    | none => exact ih h
    | some p =>
      simp only [applyStagesS] at h
      cases hf : exceptFilter p ((s.get? i).getD []) with
      | error e => rw [hf] at h; cases h
      | ok res =>
        rw [hf] at h
        intro e he
        have hmem := ih h e he
        have hget : ((s ++ [res]).get? s.length).getD [] = res := by
          simp
        rw [hget] at hmem
        exact (exceptFilter_sublist hf).subset hmem

theorem filteredEntriesProg_frame {s : Store} {inputId : Nat} {c : Criteria}
    {field dir : Str} {s' : Store} {outId : Nat}
    (hin : inputId < s.length)
    (h : filteredEntriesProg s inputId c field dir = .ok (s', outId)) :
    s'.get? inputId = s.get? inputId ∧ outId ≠ inputId ∧
      ∀ e ∈ (s'.get? outId).getD [], e ∈ (s.get? inputId).getD [] := by
  unfold filteredEntriesProg at h
  simp only [] at h
  cases ha : applyStagesS (stagePreds c) (s ++ [(s.get? inputId).getD []]) s.length with
  | error e => rw [ha] at h; cases h
  | ok pair =>
    obtain ⟨s1, fid⟩ := pair
    rw [ha] at h
    replace h : (match sortGoE (entryCmp field dir) ((s1.get? fid).getD []) [] with
        | .error e => Except.error e
        | .ok sorted => Except.ok (s1.set fid sorted, fid)) = Except.ok (s', outId) := h
    cases hs : sortGoE (entryCmp field dir) ((s1.get? fid).getD []) [] with
    | error e => rw [hs] at h; cases h
    | ok sorted =>
      rw [hs] at h
      cases h
      obtain ⟨ext, hext⟩ := applyStagesS_extends ha
      have hlen : s.length < (s ++ [(s.get? inputId).getD []]).length := by simp
      obtain ⟨hfid1, hfid2⟩ :=
        applyStagesS_id_bound ha (le_refl s.length) hlen hlen
      have hne : outId ≠ inputId := fun hh => absurd (hh ▸ hfid1) (Nat.not_le.2 hin)
      refine ⟨?_, hne, ?_⟩
      · rw [List.get?_set_ne _ _ hne]
        rw [hext]
        rw [List.append_assoc]
        exact List.get?_append hin
      · intro e he
        have hgot : ((s1.set outId sorted).get? outId).getD [] = sorted := by
          rw [List.get?_set_eq_of_lt sorted hfid2]
          rfl
        rw [hgot] at he
        rcases sortGoE_mem hs he with hmem | hmem
        · have hc := applyStagesS_contents ha e hmem
          have : ((s ++ [(s.get? inputId).getD []]).get? s.length).getD [] =
              (s.get? inputId).getD [] := by simp
          rwa [this] at hc
        · cases hmem

/-- A record passing the date predicate necessarily has its `date` field
(a missing date compares as `NaN`, which fails both bounds). -/
theorem dateFilterPred_isSome {sd : Int} {e : Entry}
    (h : dateFilterPred sd e = true) : e.date.isSome := by
  cases hd : e.date with
  | none => rw [dateFilterPred, hd] at h; cases h
  | some s => rfl

/-- Running the filter with only the time criterion set on a single record
keeps the record exactly when the time predicate holds. -/
theorem filterEntries_time_single (t : Str) (ht : t ≠ []) (e : Entry) :
    filterEntries { emptyCriteria with searchTime := t } [e] =
      .ok (if timeFilterPred t e then [e] else []) := by
  have hie : t.isEmpty = false := by
    cases t with
    | nil => exact absurd rfl ht
    | cons a as => rfl
  simp only [filterEntries, stagePreds, emptyCriteria, hie]
  simp only [List.isEmpty_nil, if_true, if_pos rfl]
  cases htp : timeFilterPred t e <;>
    simp [applyStages, exceptFilter, htp]

/-! ## The claims -/

/-- Claim C1, as stated, is false: a recurring record whose `weekdays` is
absent (`null`) is *included* by `getEntriesForDate` on an in-range day
(`entry.weekdays` is falsy, so the weekday gate is skipped and the code
falls through to `return true`). -/
theorem c1_counterexample :
    wc1e.is_recurring = some true ∧ wc1e.weekdays = none ∧
      getEntriesForDate [wc1e] (epochDay 2025 1 6) = .ok [wc1e] :=
  ⟨rfl, rfl, by decide⟩

/-- Claim C1 (corrected): a recurring record with an absent or empty
`weekdays` is treated like a non-recurring one — `getEntriesForDate` keeps
it on *every* day within its date range (the weekday gate only runs when
`weekdays` is a non-empty string). -/
theorem c1_recurring_empty_weekdays {e : Entry} {day s en : Int}
    (hd : e.date = some s) (hrec : e.is_recurring = some true)
    (hw : e.weekdays = none ∨ e.weekdays = some [])
    (hend : e.end_date = some en ∨ (e.end_date = none ∧ en = s))
    (h1 : s ≤ day) (h2 : day ≤ en)
    {entries out : List Entry} (he : e ∈ entries)
    (hok : getEntriesForDate entries day = .ok out) :
    e ∈ out :=
  exceptFilter_mem_of hok he (projActive_empty_weekdays hd hrec hw hend h1 h2)

theorem c1_witness : wc1e ∈ [wc1e] ∧ wc1e.weekdays = none :=
  ⟨@c1_recurring_empty_weekdays wc1e (epochDay 2025 1 6) (epochDay 2025 1 1)
      (epochDay 2025 1 31) rfl rfl (Or.inl rfl) (Or.inl rfl) (by decide) (by decide)
      [wc1e] [wc1e] (by decide) (by decide),
    rfl⟩

/-- Claim C2, as stated, is false: with `end_date` before `date` the
filter's date criterion matches the record on *no* day at all — not even on
`startDate` (`searchDate >= start && searchDate <= end` is unsatisfiable). -/
theorem c2_counterexample :
    wc2e.date = some 10 ∧ wc2e.end_date = some 5 ∧
      filterEntries { emptyCriteria with searchDate := some 10 } [wc2e] = .ok [] :=
  ⟨rfl, rfl, by decide⟩

/-- Claim C2 (corrected): a record with `end_date < date` does not crash
either operation, but it is not clamped to `startDate`: the filter's date
criterion matches it on no date whatsoever, while the projector (whose
modelled interval check normalizes the reversed bounds, and whose
`isSameDay` disjuncts land inside them) treats a non-recurring such record
as active exactly on the mirrored interval `[end_date, date]`. -/
theorem c2_reversed_range {e : Entry} {s en : Int}
    (hd : e.date = some s) (hen : e.end_date = some en) (hlt : en < s) :
    (∀ (c : Criteria) (sd : Int) (l out : List Entry), c.searchDate = some sd →
        filterEntries c l = .ok out → e ∉ out) ∧
    (∀ c : Criteria, (c.filterLocation = str ("all") ∨ e.location.isSome) →
        ∃ r, filterEntries c [e] = .ok r) ∧
    (e.is_recurring ≠ some true →
      ∀ day : Int, projActive day e = .ok (decide (en ≤ day) && decide (day ≤ s))) := by
  refine ⟨?_, ?_, ?_⟩
  · intro c sd l out hsd hf hmem
    have hp := filterEntries_mem_date hf hsd hmem
    simp only [dateFilterPred, hd, hen, Option.some_orElse, Bool.and_eq_true,
      decide_eq_true_eq] at hp
    omega
  · intro c hc
    refine filterEntries_ok_of_loc (hc.imp id (fun hs e' he' => ?_))
    rcases List.mem_cons.1 he' with rfl | hnil
    · exact hs
    · cases hnil
  · intro hnr day
    exact projActive_reversed hd hen hlt hnr

theorem c2_witness :
    wc2e ∉ ([] : List Entry) ∧
      (∃ r, filterEntries emptyCriteria [wc2e] = .ok r) ∧
      projActive 7 wc2e = .ok true := by
  obtain ⟨h1, h2, h3⟩ := @c2_reversed_range wc2e 10 5 rfl rfl (by decide)
  refine ⟨h1 { emptyCriteria with searchDate := some 10 } 10 [wc2e] [] rfl (by decide),
    h2 emptyCriteria (Or.inl rfl), (h3 (by decide) 7).trans (by decide)⟩

/-- Claim C3, as stated, is false: the weekday criterion never consults
`is_recurring`, so a non-recurring record whose `weekdays` happens to list a
selected day *is* kept by the filter. -/
theorem c3_counterexample :
    wc3e.is_recurring = some false ∧
      filterEntries { emptyCriteria with selectedWeekdays := [str ("monday")] } [wc3e] =
        .ok [wc3e] :=
  ⟨rfl, by decide⟩

/-- Claim C3 (corrected): the `weekdaysAny` criterion ignores
`isRecurring` entirely.  Any record — recurring or not — matches a non-empty
selection exactly when its `weekdays` string is present, non-empty, and one
of its raw comma-split tokens equals a selected day; and whatever survives
the filter with a non-empty selection satisfies that predicate. -/
theorem c3_weekday_ignores_recurring :
    (∀ (sel : List Str) (e : Entry) (b : Option Bool),
        weekdayFilterPred sel { e with is_recurring := b } = weekdayFilterPred sel e) ∧
    (∀ (sel : List Str) (e : Entry), weekdayFilterPred sel e = true ↔
        ∃ w, e.weekdays = some w ∧ w ≠ [] ∧ ∃ d ∈ sel, d ∈ splitComma w) ∧
    (∀ (c : Criteria) (l out : List Entry) (e : Entry),
        filterEntries c l = .ok out → e ∈ out → c.selectedWeekdays ≠ [] →
        weekdayFilterPred c.selectedWeekdays e = true) :=
  ⟨weekdayFilterPred_ignores_recurring,
    weekdayFilterPred_iff,
    fun _ _ _ _ hf hm hw => filterEntries_mem_weekday hf hw hm⟩

theorem c3_witness :
    weekdayFilterPred [str ("monday")] { wc3e with is_recurring := some true } =
      weekdayFilterPred [str ("monday")] wc3e ∧
    weekdayFilterPred [str ("monday")] wc3e = true :=
  ⟨c3_weekday_ignores_recurring.1 [str ("monday")] wc3e (some true),
    (c3_weekday_ignores_recurring.2.1 [str ("monday")] wc3e).2
      ⟨str ("monday"), rfl, by decide, str ("monday"), by decide, by decide⟩⟩

/-- Claim C4, as stated, is false: a record missing its `locations` field
makes the predicate filter *throw* (`undefined.split`) as soon as a location
criterion is set, instead of completing and excluding the record. -/
theorem c4_counterexample :
    wc4e.location = none ∧
      filterEntries { emptyCriteria with filterLocation := str ("Berlin") } [wc4e] =
        .error ("TypeError: cannot read properties of undefined") :=
  ⟨rfl, by decide⟩

/-- Claim C4 (corrected): records with missing *optional* fields never make
any of the three operations raise, and a record missing `startDate` is
excluded from the filter's date matches without raising; but fail-safe does
not hold across the board: the filter raises when a location criterion
meets a record missing `locations`, and the projector raises on a record
missing `startDate`. -/
theorem c4_malformed_records :
    (∀ (c : Criteria) (l : List Entry),
        (c.filterLocation = str ("all") ∨ ∀ e ∈ l, e.location.isSome) →
        ∃ r, filterEntries c l = .ok r) ∧
    (∀ (c : Criteria) (l out : List Entry) (e : Entry) (sd : Int),
        c.searchDate = some sd → filterEntries c l = .ok out → e ∈ out →
        e.date.isSome) ∧
    (∀ (field dir : Str) (l : List Entry), field ≠ str ("location") →
        ∃ out, sortEntriesE field dir l = .ok out) ∧
    (∀ (l : List Entry) (day : Int), (∀ e ∈ l, e.date.isSome) →
        ∃ r, getEntriesForDate l day = .ok r) ∧
    (∀ (l : List Entry) (day : Int) (e : Entry), e ∈ l → e.date = none →
        ∃ m, getEntriesForDate l day = .error m) := by
  refine ⟨fun c l h => filterEntries_ok_of_loc h,
    fun c l out e sd hsd hf hm => dateFilterPred_isSome (filterEntries_mem_date hf hsd hm),
    ?_,
    fun l day h => getEntriesForDate_ok h,
    fun l day e hm hd => getEntriesForDate_error hm hd⟩
  intro field dir l hfield
  have htotal : ∀ a b : Entry, ∃ v, entryCmp field dir a b = .ok v := by
    intro a b
    have hcomp : ∃ v, entryComparison field a b = .ok v := by
      by_cases h1 : field = str ("name")
      · subst h1; exact ⟨_, rfl⟩
      by_cases h2 : field = str ("date")
      · subst h2; exact ⟨_, rfl⟩
      by_cases h4 : field = str ("shift_type")
      · subst h4; exact ⟨_, rfl⟩
      by_cases h5 : field = str ("created_at")
      · subst h5; exact ⟨_, rfl⟩
      refine ⟨0, ?_⟩
      unfold entryComparison
      rw [if_neg h1, if_neg h2, if_neg hfield, if_neg h4, if_neg h5]
    obtain ⟨v, hv⟩ := hcomp
    exact ⟨if dir = str ("asc") then v else -v, by simp [entryCmp, hv]⟩
  refine ⟨sortGo (fun a b =>
      match entryCmp field dir a b with
      | .ok v => v
      | .error _ => 0) l [], sortGoE_ok ?_⟩
  intro a _ b _
  obtain ⟨v, hv⟩ := htotal a b
  rw [hv]

theorem c4_witness :
    (∃ r, filterEntries { emptyCriteria with searchDate := some 0 }
        [{ baseEntry with date := none }] = .ok r) ∧
    (∃ out, sortEntriesE (str ("date")) (str ("asc"))
        [{ baseEntry with date := none }, baseEntry] = .ok out) ∧
    (∃ m, getEntriesForDate [{ baseEntry with date := none }] 0 = .error m) :=
  ⟨c4_malformed_records.1 _ _ (Or.inl rfl),
    c4_malformed_records.2.2.1 (str ("date")) (str ("asc")) _ (by decide),
    c4_malformed_records.2.2.2.2 _ 0 { baseEntry with date := none } (by decide) rfl⟩

/-- Claim C5, as stated, is false: a `SortField` outside the five known
values falls through the `switch` with `comparison = 0` and the sorter
silently returns the collection un-reordered — no error is raised. -/
theorem c5_counterexample :
    sortEntriesE (str ("bogus")) (str ("asc")) [wc5b, wc5a] = .ok [wc5b, wc5a] := by
  decide

/-- Claim C5 (corrected): for every collection and direction, an
unrecognized `SortField` makes the sorter a silent no-op that returns the
collection in its original order (constant-zero comparison), rather than
failing fast. -/
theorem c5_invalid_field_noop (field dir : Str) (l : List Entry)
    (hf : field ∉ validSortFields) : sortEntriesE field dir l = .ok l :=
  sortEntriesE_invalid hf l

theorem c5_witness :
    sortEntriesE (str ("nonsense")) (str ("desc")) [wc5a, wc5b] = .ok [wc5a, wc5b] :=
  c5_invalid_field_noop (str ("nonsense")) (str ("desc")) [wc5a, wc5b] (by decide)

/-- Claim C6 (confirmed): with every criterion unset the filter returns all
records in their original order, and for any criteria the output is an
order-preserving subsequence of the input. -/
theorem c6_filter_identity_sublist (l : List Entry) (c : Criteria) (out : List Entry) :
    filterEntries emptyCriteria l = .ok l ∧
    (filterEntries c l = .ok out → out.Sublist l) :=
  ⟨filterEntries_empty l, fun h => filterEntries_sublist h⟩

theorem c6_witness :
    filterEntries emptyCriteria [baseEntry, wc6b] = .ok [baseEntry, wc6b] ∧
      List.Sublist [wc6b] [baseEntry, wc6b] :=
  ⟨(c6_filter_identity_sublist [baseEntry, wc6b] emptyCriteria []).1,
    (c6_filter_identity_sublist [baseEntry, wc6b]
        { emptyCriteria with filterShiftType := str ("earlyShift") } [wc6b]).2 (by decide)⟩

/-- Claim C8 (confirmed): with a non-empty time criterion, a record carrying
both (non-empty) time bounds matches exactly when the criterion lies within
`[start_time, end_time]` — both boundaries included (`<=`/`>=`) — and a
record with no time bounds matches every time criterion. -/
theorem c8_time_criterion (t : Str) (e : Entry) (ht : t ≠ []) :
    (∀ st et, e.start_time = some st → e.end_time = some et → st ≠ [] → et ≠ [] →
        (timeFilterPred t e = true ↔ (strLe st t = true ∧ strLe t et = true))) ∧
    ((e.start_time = none ∧ e.end_time = none) → timeFilterPred t e = true) ∧
    filterEntries { emptyCriteria with searchTime := t } [e] =
      .ok (if timeFilterPred t e then [e] else []) := by
  refine ⟨?_, ?_, filterEntries_time_single t ht e⟩
  · intro st et hst het hstne hetne
    have h1 : st.isEmpty = false := by
      cases st with
      | nil => exact absurd rfl hstne
      | cons a as => rfl
    have h2 : et.isEmpty = false := by
      cases et with
      | nil => exact absurd rfl hetne
      | cons a as => rfl
    simp [timeFilterPred, hst, het, h1, h2]
  · rintro ⟨h1, h2⟩
    simp [timeFilterPred, h1, h2]

theorem c8_witness :
    (timeFilterPred (str ("08:00")) w8e = true ↔
      (strLe (str ("08:00")) (str ("08:00")) = true ∧
        strLe (str ("08:00")) (str ("16:00")) = true)) ∧
    filterEntries { emptyCriteria with searchTime := str ("10:30") } [w8e] =
      .ok (if timeFilterPred (str ("10:30")) w8e then [w8e] else []) :=
  ⟨(c8_time_criterion (str ("08:00")) w8e (by decide)).1 (str ("08:00")) (str ("16:00"))
      rfl rfl (by decide) (by decide),
    (c8_time_criterion (str ("10:30")) w8e (by decide)).2.2⟩

/-- Claim C9 (confirmed, over the array-identity model): the computation
copies the input array before doing anything (`[...entries]`), each filter
stage allocates a fresh array, and the in-place sort hits only the copy —
so the input array is left untouched, the result is a different array, and
every record of the result is one of the input records, unmodified. -/
theorem c9_no_mutation {s : Store} {inputId : Nat} {c : Criteria}
    {field dir : Str} {s' : Store} {outId : Nat}
    (hin : inputId < s.length)
    (h : filteredEntriesProg s inputId c field dir = .ok (s', outId)) :
    s'.get? inputId = s.get? inputId ∧ outId ≠ inputId ∧
      ∀ e ∈ (s'.get? outId).getD [], e ∈ (s.get? inputId).getD [] :=
  filteredEntriesProg_frame hin h

theorem c9_witness :
    ([[baseEntry], [baseEntry]] : Store).get? 0 = ([[baseEntry]] : Store).get? 0 ∧
      (1 : Nat) ≠ 0 ∧
      ∀ e ∈ (([[baseEntry], [baseEntry]] : Store).get? 1).getD [],
        e ∈ (([[baseEntry]] : Store).get? 0).getD [] :=
  @c9_no_mutation [[baseEntry]] 0 emptyCriteria (str ("date")) (str ("asc"))
    [[baseEntry], [baseEntry]] 1 (by decide) (by decide)

/-- Claim C10 (confirmed): the filter's weekday criterion compares the
*raw* comma-split tokens of `weekdays` (no trimming), while the projector
trims each token before looking it up in the weekday map — so a
serialization with spaces after commas matches only its first day in the
filter but every listed day in the projector. -/
theorem c10_raw_vs_trimmed_tokens :
    (∀ (sel : List Str) (e : Entry), weekdayFilterPred sel e = true ↔
        ∃ w, e.weekdays = some w ∧ w ≠ [] ∧ ∃ d ∈ sel, d ∈ splitComma w) ∧
    (∀ (e : Entry) (day s en : Int) (w : Str), e.date = some s →
        e.end_date = some en → e.is_recurring = some true → e.weekdays = some w →
        w ≠ [] → s ≤ day → day ≤ en →
        projActive day e = .ok ((splitComma w).any
          (fun wd => decide (weekdayMap (trimStr wd) = some (getDay day))))) :=
  ⟨weekdayFilterPred_iff,
    fun _ _ _ _ _ hd hen hrec hw hwne h1 h2 =>
      projActive_recurring hd hen hrec hw hwne h1 h2⟩

theorem c10_witness :
    weekdayFilterPred [str ("monday")] wste = true ∧
    weekdayFilterPred [str ("tuesday")] wste = false ∧
    projActive (epochDay 2025 1 7) wste = .ok true := by
  refine ⟨(c10_raw_vs_trimmed_tokens.1 [str ("monday")] wste).2
      ⟨str ("monday, tuesday"), rfl, by decide, str ("monday"), by decide, by decide⟩,
    by decide,
    (c10_raw_vs_trimmed_tokens.2 wste (epochDay 2025 1 7) (epochDay 2025 1 1)
        (epochDay 2025 1 31) (str ("monday, tuesday")) rfl rfl rfl rfl (by decide)
        (by decide) (by decide)).trans (by decide)⟩

/-! ## Stability of each concrete sort field -/

theorem intSub_lt_iff (x y : Int) : x - y < 0 ↔ decide (x < y) = true := by
  simp [sub_neg]

theorem intSub_neg_lt_iff (x y : Int) : -(x - y) < 0 ↔ decide (y < x) = true := by
  rw [neg_sub]
  simp [sub_neg]

theorem intLtB_irrefl (k : Int) : decide (k < k) = false := by simp

theorem intLtB_trans (k1 k2 k3 : Int) (h1 : decide (k1 < k2) = true)
    (h2 : decide (k2 < k3) = true) : decide (k1 < k3) = true := by
  simp only [decide_eq_true_eq] at h1 h2 ⊢
  omega

theorem sameSortKey_name (x y : Entry) :
    sameSortKey (str ("name")) x y = decide (nameKey x = nameKey y) := by
  have h1 : sortKey (str ("name")) x = .inl (nameKey x) := rfl
  have h2 : sortKey (str ("name")) y = .inl (nameKey y) := rfl
  rw [sameSortKey, h1, h2]
  exact decide_eq_decide.2 (by simp)

theorem sameSortKey_date (x y : Entry) :
    sameSortKey (str ("date")) x y = decide (x.date.getD 0 = y.date.getD 0) := by
  have h1 : sortKey (str ("date")) x = .inr (x.date.getD 0) := rfl
  have h2 : sortKey (str ("date")) y = .inr (y.date.getD 0) := rfl
  rw [sameSortKey, h1, h2]
  exact decide_eq_decide.2 (by simp)

theorem sameSortKey_location (x y : Entry) :
    sameSortKey (str ("location")) x y = decide (x.location.getD [] = y.location.getD []) := by
  have h1 : sortKey (str ("location")) x = .inl (x.location.getD []) := rfl
  have h2 : sortKey (str ("location")) y = .inl (y.location.getD []) := rfl
  rw [sameSortKey, h1, h2]
  exact decide_eq_decide.2 (by simp)

theorem sameSortKey_shift (x y : Entry) :
    sameSortKey (str ("shift_type")) x y =
      decide (x.shift_type.getD [] = y.shift_type.getD []) := by
  have h1 : sortKey (str ("shift_type")) x = .inl (x.shift_type.getD []) := rfl
  have h2 : sortKey (str ("shift_type")) y = .inl (y.shift_type.getD []) := rfl
  rw [sameSortKey, h1, h2]
  exact decide_eq_decide.2 (by simp)

theorem sameSortKey_created (x y : Entry) :
    sameSortKey (str ("created_at")) x y =
      decide (x.created_at.getD 0 = y.created_at.getD 0) := by
  have h1 : sortKey (str ("created_at")) x = .inr (x.created_at.getD 0) := rfl
  have h2 : sortKey (str ("created_at")) y = .inr (y.created_at.getD 0) := rfl
  rw [sameSortKey, h1, h2]
  exact decide_eq_decide.2 (by simp)

theorem entryCmp_name (dir : Str) (a b : Entry) :
    entryCmp (str ("name")) dir a b =
      .ok (if dir = str ("asc") then strCmp (nameKey a) (nameKey b)
           else -(strCmp (nameKey a) (nameKey b))) := rfl

theorem entryCmp_date {a b : Entry} (dir : Str) {x y : Int}
    (ha : a.date = some x) (hb : b.date = some y) :
    entryCmp (str ("date")) dir a b =
      .ok (if dir = str ("asc") then x - y else -(x - y)) := by
  have h0 : entryComparison (str ("date")) a b = .ok (jsDateDiff a.date b.date) := rfl
  unfold entryCmp
  rw [h0, ha, hb]
  rfl

theorem entryCmp_location {a b : Entry} (dir : Str) {la lb : Str}
    (ha : a.location = some la) (hb : b.location = some lb) :
    entryCmp (str ("location")) dir a b =
      .ok (if dir = str ("asc") then strCmp la lb else -(strCmp la lb)) := by
  have h0 : entryComparison (str ("location")) a b =
      (match a.location with
       | none => .error ("TypeError: cannot read properties of undefined")
       | some l => .ok (strCmp l (b.location.getD (str ("undefined"))))) := rfl
  unfold entryCmp
  rw [h0, ha, hb]
  rfl

theorem entryCmp_shift (dir : Str) (a b : Entry) :
    entryCmp (str ("shift_type")) dir a b =
      .ok (if dir = str ("asc") then strCmp (a.shift_type.getD []) (b.shift_type.getD [])
           else -(strCmp (a.shift_type.getD []) (b.shift_type.getD []))) := rfl

theorem entryCmp_created (dir : Str) (a b : Entry) :
    entryCmp (str ("created_at")) dir a b =
      .ok (if dir = str ("asc") then a.created_at.getD 0 - b.created_at.getD 0
           else -(a.created_at.getD 0 - b.created_at.getD 0)) := rfl

/-- Stability wrapper incorporating the bridge from `sameSortKey` to the
concrete per-field key. -/
theorem sort_stable_general {K : Type} [DecidableEq K] (key : Entry → K)
    (lt : K → K → Bool) (cmpP : Entry → Entry → Int) {field dir : Str} {l : List Entry}
    (hcmp : ∀ a b, a ∈ l → b ∈ l → entryCmp field dir a b = .ok (cmpP a b))
    (hsign : ∀ a b, cmpP a b < 0 ↔ lt (key a) (key b) = true)
    (hirr : ∀ k, lt k k = false)
    (htrans : ∀ k1 k2 k3, lt k1 k2 = true → lt k2 k3 = true → lt k1 k3 = true)
    (e0 : Entry)
    (hbridge : ∀ x y : Entry, sameSortKey field x y = decide (key x = key y)) :
    ∃ out, sortEntriesE field dir l = .ok out ∧
      out.filter (fun e => sameSortKey field e e0) =
        l.filter (fun e => sameSortKey field e e0) := by
  obtain ⟨out, hok, hfil⟩ :=
    sort_stable_of_key key lt cmpP hcmp hsign hirr htrans (key e0)
  refine ⟨out, hok, ?_⟩
  rw [List.filter_congr (fun x _ => hbridge x e0),
    List.filter_congr (fun x _ => hbridge x e0)]
  exact hfil

/-- Claim C7 (confirmed): for every collection, every recognized sort
field and both directions, the sorter is stable — records with equal sort
keys keep their input order (stated as: the output restricted to any one
key class equals the input restricted to that class).  For the `date` and
`location` fields the records are assumed well-formed (field present), as
a missing operand degenerates the comparator (`NaN` is treated as `+0`,
and a missing `location` throws). -/
theorem c7_sort_stable (field dir : Str) (l : List Entry) (e0 : Entry)
    (hf : field ∈ validSortFields)
    (hdate : field = str ("date") → ∀ e ∈ l, e.date.isSome)
    (hloc : field = str ("location") → ∀ e ∈ l, e.location.isSome) :
    ∃ out, sortEntriesE field dir l = .ok out ∧
      out.filter (fun e => sameSortKey field e e0) =
        l.filter (fun e => sameSortKey field e e0) := by
  simp only [validSortFields, List.mem_cons, List.not_mem_nil, or_false] at hf
  rcases hf with rfl | rfl | rfl | rfl | rfl
  · by_cases hdir : dir = str ("asc")
    · exact sort_stable_general nameKey strLt
        (fun a b => strCmp (nameKey a) (nameKey b))
        (fun a b _ _ => by rw [entryCmp_name dir a b, if_pos hdir])
        (fun a b => strCmp_lt_iff _ _) strLt_irrefl
        (fun _ _ _ h1 h2 => strLt_trans h1 h2) e0 sameSortKey_name
    · exact sort_stable_general nameKey (fun k1 k2 => strLt k2 k1)
        (fun a b => -(strCmp (nameKey a) (nameKey b)))
        (fun a b _ _ => by rw [entryCmp_name dir a b, if_neg hdir])
        (fun a b => strCmp_neg_lt_iff _ _) strLt_irrefl
        (fun _ _ _ h1 h2 => strLt_trans h2 h1) e0 sameSortKey_name
  · have hd := hdate rfl
    by_cases hdir : dir = str ("asc")
    · refine sort_stable_general (fun e => e.date.getD 0) (fun x y => decide (x < y))
        (fun a b => a.date.getD 0 - b.date.getD 0)
        (fun a b ha hb => ?_)
        (fun a b => intSub_lt_iff _ _) intLtB_irrefl intLtB_trans e0 sameSortKey_date
      obtain ⟨x, hx⟩ := Option.isSome_iff_exists.1 (hd a ha)
      obtain ⟨y, hy⟩ := Option.isSome_iff_exists.1 (hd b hb)
      rw [entryCmp_date dir hx hy, if_pos hdir]
      simp [hx, hy]
    · refine sort_stable_general (fun e => e.date.getD 0) (fun x y => decide (y < x))
        (fun a b => -(a.date.getD 0 - b.date.getD 0))
        (fun a b ha hb => ?_)
        (fun a b => intSub_neg_lt_iff _ _)
        intLtB_irrefl (fun k1 k2 k3 h1 h2 => intLtB_trans k3 k2 k1 h2 h1)
        e0 sameSortKey_date
      obtain ⟨x, hx⟩ := Option.isSome_iff_exists.1 (hd a ha)
      obtain ⟨y, hy⟩ := Option.isSome_iff_exists.1 (hd b hb)
      rw [entryCmp_date dir hx hy, if_neg hdir]
      simp [hx, hy]
  · have hl := hloc rfl
    by_cases hdir : dir = str ("asc")
    · refine sort_stable_general (fun e => e.location.getD []) strLt
        (fun a b => strCmp (a.location.getD []) (b.location.getD []))
        (fun a b ha hb => ?_)
        (fun a b => strCmp_lt_iff _ _) strLt_irrefl
        (fun _ _ _ h1 h2 => strLt_trans h1 h2) e0 sameSortKey_location
      obtain ⟨x, hx⟩ := Option.isSome_iff_exists.1 (hl a ha)
      obtain ⟨y, hy⟩ := Option.isSome_iff_exists.1 (hl b hb)
      rw [entryCmp_location dir hx hy, if_pos hdir]
      simp [hx, hy]
    · refine sort_stable_general (fun e => e.location.getD [])
        (fun k1 k2 => strLt k2 k1)
        (fun a b => -(strCmp (a.location.getD []) (b.location.getD [])))
        (fun a b ha hb => ?_)
        (fun a b => strCmp_neg_lt_iff _ _) strLt_irrefl
        (fun _ _ _ h1 h2 => strLt_trans h2 h1) e0 sameSortKey_location
      obtain ⟨x, hx⟩ := Option.isSome_iff_exists.1 (hl a ha)
      obtain ⟨y, hy⟩ := Option.isSome_iff_exists.1 (hl b hb)
      rw [entryCmp_location dir hx hy, if_neg hdir]
      simp [hx, hy]
  · by_cases hdir : dir = str ("asc")
    · exact sort_stable_general (fun e => e.shift_type.getD []) strLt
        (fun a b => strCmp (a.shift_type.getD []) (b.shift_type.getD []))
        (fun a b _ _ => by rw [entryCmp_shift dir a b, if_pos hdir])
        (fun a b => strCmp_lt_iff _ _) strLt_irrefl
        (fun _ _ _ h1 h2 => strLt_trans h1 h2) e0 sameSortKey_shift
    · exact sort_stable_general (fun e => e.shift_type.getD [])
        (fun k1 k2 => strLt k2 k1)
        (fun a b => -(strCmp (a.shift_type.getD []) (b.shift_type.getD [])))
        (fun a b _ _ => by rw [entryCmp_shift dir a b, if_neg hdir])
        (fun a b => strCmp_neg_lt_iff _ _) strLt_irrefl
        (fun _ _ _ h1 h2 => strLt_trans h2 h1) e0 sameSortKey_shift
  · by_cases hdir : dir = str ("asc")
    · exact sort_stable_general (fun e => e.created_at.getD 0) (fun x y => decide (x < y))
        (fun a b => a.created_at.getD 0 - b.created_at.getD 0)
        (fun a b _ _ => by rw [entryCmp_created dir a b, if_pos hdir])
        (fun a b => intSub_lt_iff _ _) intLtB_irrefl intLtB_trans e0 sameSortKey_created
    · exact sort_stable_general (fun e => e.created_at.getD 0) (fun x y => decide (y < x))
        (fun a b => -(a.created_at.getD 0 - b.created_at.getD 0))
        (fun a b _ _ => by rw [entryCmp_created dir a b, if_neg hdir])
        (fun a b => intSub_neg_lt_iff _ _) intLtB_irrefl
        (fun k1 k2 k3 h1 h2 => intLtB_trans k3 k2 k1 h2 h1) e0 sameSortKey_created

theorem c7_witness :
    ∃ out, sortEntriesE (str ("name")) (str ("asc")) [wc5a, wc5b] = .ok out ∧
      out.filter (fun e => sameSortKey (str ("name")) e wc5a) =
        [wc5a, wc5b].filter (fun e => sameSortKey (str ("name")) e wc5a) :=
  c7_sort_stable (str ("name")) (str ("asc")) [wc5a, wc5b] wc5a (by decide)
    (fun h => absurd h (by decide)) (fun h => absurd h (by decide))
